import Mathlib

/-!
# Verification of the bud generator-backed virtual filesystem ("GenFS")

This file gives a shallow embedding of the parts of the `bud` repository
that the specification talks about:

* the `valid` package (`valid.Dir`, `valid.invalidDir`), translated
  directly from the Go source;
* the budfs generator-backed virtual filesystem (generator tree, merge
  overlay, dependency-tracked two-tier cache, change flushing, sync
  engine).  The budfs implementation itself only appears in the
  repository through its test-suite, registrations and callers, so the
  filesystem semantics below are modelled from the specification
  (see the doc comments marked `Modelled from the spec:`), with the
  behaviours pinned down by the test-suite where the tests are explicit.

Paths are lists of slash-separated segments (`Key`); file contents are
`String`s; generator bodies are modelled as syntactic records carrying
the set of paths the body consults (its dependencies, which the scoped
FS would record) together with the produced output.  Counters that the
tests place inside generator bodies and inside the base filesystem are
modelled as run logs on the interpreter state (`genRunLog`,
`baseReadLog`), with `List.count` giving the counter value.
-/

namespace valid

/-- Lower-casing of a string, modelling Go's `strings.ToLower`
(per-character lower-casing; the claims under verification only compare
`ToLower name` with `name`, so the precise character table is
irrelevant as long as both sides use the same one). -/
def strToLower (s : String) : String := s.map Char.toLower

/-- Invalid dir check, translated from `invalidDir` in the `valid`
package: empty, starts with `_`, starts with `.`, the reserved word
`bud`, or has uppercase letters.  Go reads `name[0]` (a byte); for the
two comparisons made (`'_'`, `'.'`, both single-byte code points) this
agrees with the first character. -/
def invalidDir (name : String) : Bool :=
  name == "" ||
  name.front == '_' ||
  name.front == '.' ||
  name == "bud" ||
  strToLower name != name

/-- `Dir` validates that the name matches a valid directory, translated
from the `valid` package: the negation of `invalidDir`. -/
def Dir (name : String) : Bool := !invalidDir name

end valid

namespace BudFS

/-- Error taxonomy of the spec (§7): not-exist sentinel, invalid
argument, and a catch-all for the remaining kinds. -/
inductive Err where
  | notExist
  | invalid
  | other
  deriving DecidableEq, Repr

/-- A path inside the virtual filesystem, as a list of slash-separated
segments.  The root `.` is the empty list. -/
abbrev Key := List String

/-- Join segments back into the textual path (used for the `target`
field pre-populated for file servers). -/
def joinKey (p : Key) : String := String.intercalate "/" p

/-- Split a character list at a separator (the splitting underlying
`strings.Split(name, "/")`: an empty input yields one empty element,
and every separator starts a new element). -/
def splitChars (sep : Char) : List Char → List (List Char)
  | [] => [[]]
  | a :: rest =>
      match splitChars sep rest with
      | [] => [[]]
      | seg :: segs => if a = sep then [] :: seg :: segs else (a :: seg) :: segs

/-- The slash-separated elements of a textual name. -/
def splitSegs (name : String) : List String :=
  (splitChars '/' name.toList).map fun l => ⟨l⟩

/-- Go's `fs.ValidPath` on a textual name, which is the check the
facade performs before consulting any generator: `.` is the root and is
valid; otherwise every slash-separated element must be non-empty and
must not be `.` or `..`.  (Note backslashes are ordinary name bytes for
this check.) -/
def validPath (name : String) : Bool :=
  name == "." ||
    (splitSegs name).all fun seg => seg != "" && seg != "." && seg != ".."

/-- Segments of a textual name (after validation): `.` denotes the
root. -/
def segsOf (name : String) : Key :=
  if name = "." then [] else splitSegs name

/-- Modelled from the spec: the generator kinds of §3 (the budfs
implementation is not part of the source tree; only its tests,
registrations and callers are).  A generator body is modelled
syntactically: `deps` is the list of paths the body consults through
its scoped FS (installed as the cache entry's dependencies on success),
and the produced output is a fixed value — i.e. generator bodies are
deterministic, as every body in the repository's tests is.
* `file`: produces one file at a fixed path, or fails with an error;
* `dir`: produces a directory whose children are further generators
  registered at relative paths (`berr` is the body's error, if any, in
  which case the children are not registered);
* `server`: answers for any path strictly inside its prefix; the body
  receives the full requested path (`target`) and yields the paths it
  consults together with the produced data;
* `mount`: binds a whole sub-FS (an association of relative paths to
  file data) at a prefix. -/
inductive Gen where
  | file (deps : List Key) (res : Except Err String)
  | dir (deps : List Key) (berr : Option Err) (children : List (Key × Gen))
  | server (body : String → List Key × String)
  | mount (entries : List (Key × String))

/-- The generator registry: the list of registrations (path, generator)
in registration order; per the spec a later registration at the same
path replaces the prior one. -/
abbrev Reg := List (Key × Gen)

/-- First-match association lookup (used for caches, whose keys are
unique, and for base/mount file tables). -/
def lookupA {α : Type} : List (Key × α) → Key → Option α
  | [], _ => none
  | (k, v) :: rest, k' => if k = k' then some v else lookupA rest k'

/-- The generator registered at the current node, i.e. at relative path
`[]` — the last such registration wins. -/
def regAt (reg : Reg) : Option Gen :=
  (reg.filterMap fun kg => if kg.1 = [] then some kg.2 else none).getLast?

/-- Restrict a (relative) registry to the registrations under child
segment `c`, dropping that segment. -/
def regDescend (reg : Reg) (c : String) : Reg :=
  reg.filterMap fun kg =>
    match kg.1 with
    | [] => none
    | c' :: rest => if c' = c then some (rest, kg.2) else none

/-- Byte-wise lexicographic comparison on characters lists (the sort
order of directory entries). -/
def leListChar : List Char → List Char → Bool
  | [], _ => true
  | _ :: _, [] => false
  | a :: as, b :: bs => if a = b then leListChar as bs else decide (a.toNat < b.toNat)

/-- Lexicographic order on strings used to sort directory entries. -/
def leStr (a b : String) : Bool := leListChar a.toList b.toList

/-- Insertion step of the entry sort. -/
def insortKid (x : String × Bool) : List (String × Bool) → List (String × Bool)
  | [] => [x]
  | y :: rest => if leStr x.1 y.1 then x :: y :: rest else y :: insortKid x rest

/-- Sort directory entries by name. -/
def sortKids (l : List (String × Bool)) : List (String × Bool) := l.foldr insortKid []

/-- Drop later duplicates by name, keeping the first occurrence (the
generator side is listed first, so it wins name collisions). -/
def dedupKids (seen : List String) : List (String × Bool) → List (String × Bool)
  | [] => []
  | (c, d) :: rest =>
      if c ∈ seen then dedupKids seen rest else (c, d) :: dedupKids (c :: seen) rest

/-- Drop later duplicate strings, keeping the first occurrence. -/
def dedupStrs (seen : List String) : List String → List String
  | [] => []
  | c :: rest => if c ∈ seen then dedupStrs seen rest else c :: dedupStrs (c :: seen) rest

/-- Insertion step of the name sort. -/
def insortStr (x : String) : List String → List String
  | [] => [x]
  | y :: rest => if leStr x y then x :: y :: rest else y :: insortStr x rest

/-- Sort names. -/
def sortStrs (l : List String) : List String := l.foldr insortStr []

/-- The base (underlying) filesystem: an association of file paths to
contents; directories are implied by the file paths. -/
abbrev Base := List (Key × String)

/-- A node read from the base filesystem: a file with data, or a
directory with named entries (`true` marks a sub-directory). -/
inductive BNode where
  | file (data : String)
  | dir (kids : List (String × Bool))
  deriving DecidableEq, Repr

/-- If `k` lies strictly under directory `p`, the child entry of `p` it
induces (name of the first remaining segment; a directory when more
segments follow). -/
def underAt (p k : Key) : Option (String × Bool) :=
  if p.isPrefixOf k then
    match k.drop p.length with
    | [] => none
    | [c] => some (c, false)
    | c :: _ :: _ => some (c, true)
  else none

/-- Children of directory `p` induced by the base filesystem's file
paths. -/
def baseKids (base : Base) (p : Key) : List (String × Bool) :=
  sortKids (dedupKids [] (base.filterMap fun e => underAt p e.1))

/-- Modelled from the spec: reading path `p` directly from the base
filesystem — a file when `p` is a file path, a directory when `p` is
the root or a proper prefix of some file path, not-exist otherwise. -/
def baseNode (base : Base) (p : Key) : Except Err BNode :=
  match lookupA base p with
  | some d => .ok (.file d)
  | none =>
      let kids := baseKids base p
      if p = [] ∨ kids ≠ [] then .ok (.dir kids) else .error .notExist

/-- How a directory child appears during enumeration: a stub directory
(child generators are not executed for sub-directories), a stub file
(from a mount table), or a child file generator which enumeration must
run — a run failing with the not-exist sentinel makes the child be
omitted from the listing. -/
inductive ChildInfo where
  | stubDir
  | stubFile
  | fileRun (key : Key) (deps : List Key) (res : Except Err String)

/-- The terminal action the generator tree prescribes for a request
path (step 2–7 of the dispatch in §4.D):
* `fileGen`: an exactly-matching file generator to run;
* `dirNode`: a directory — `drun` is the directory generator to run
  for it (if one is registered there) and `children` its enumeration;
* `serveGen`: a file server answering for the path, with the data the
  body produced for the pre-populated target;
* `mountFile`: a file served from a mounted sub-FS;
* `fallThrough`: the generator tree does not resolve the path (the
  merge overlay falls through to the base filesystem);
* `invalidArg`: listing a file-server prefix. -/
inductive REnd where
  | fileGen (key : Key) (deps : List Key) (res : Except Err String)
  | dirNode (drun : Option (Key × List Key × Option Err)) (children : List (String × ChildInfo))
  | serveGen (key : Key) (deps : List Key) (data : String)
  | mountFile (data : String)
  | fallThrough
  | invalidArg

/-- Classify child `c` of a node whose (relative) subtree registry is
`sub`: an exactly-registered file generator must be run by enumeration;
everything else is a directory stub. -/
def childClass (pfx : Key) (sub : Reg) (c : String) : String × ChildInfo :=
  match regAt sub with
  | some (.file deps res) => (c, .fileRun (pfx ++ [c]) deps res)
  | _ => (c, .stubDir)

/-- The sorted, deduplicated children of a node from its combined
(relative) registry. -/
def nodeChildren (pfx : Key) (combined : Reg) : List (String × ChildInfo) :=
  (sortStrs (dedupStrs [] (combined.filterMap fun kg => kg.1.head?))).map
    fun c => childClass pfx (regDescend combined c) c

/-- Children of directory `rel` inside a mount table. -/
def mountKids (entries : List (Key × String)) (rel : Key) : List (String × Bool) :=
  sortKids (dedupKids [] (entries.filterMap fun e => underAt rel e.1))

/-- Resolve `rel` inside a mounted sub-FS: reads under the prefix are
re-rooted into the mounted FS. -/
def mountNode (entries : List (Key × String)) (rel : Key) : REnd :=
  match lookupA entries rel with
  | some d => .mountFile d
  | none =>
      let kids := mountKids entries rel
      if rel = [] ∨ kids ≠ [] then
        .dirNode none (kids.map fun e => (e.1, if e.2 then ChildInfo.stubDir else ChildInfo.stubFile))
      else .fallThrough

/-- Modelled from the spec: request dispatch of the generator tree
(§4.D), computed as a pure route because generator bodies are
syntactic.  Returns the directory generators that must be run on the
way (the chain: their cache keys and dependencies — only those whose
dynamically-registered children the path actually passes through),
together with the terminal action.  Mount entries take priority over
file/dir generators registered at overlapping paths within the mount's
subtree (the quirk noted in §9); files have no children, so a strict
extension of a file generator's path falls through as not-found. -/
def route (pfx : Key) (reg : Reg) : Key → List (Key × List Key) × REnd
  | [] =>
    match regAt reg with
    | some (.mount entries) => ([], mountNode entries [])
    | some (.file deps res) => ([], .fileGen pfx deps res)
    | some (.server _) => ([], .invalidArg)
    | some (.dir deps berr children) =>
        match berr with
        | some e => ([], .dirNode (some (pfx, deps, some e)) [])
        | none => ([], .dirNode (some (pfx, deps, none)) (nodeChildren pfx (reg ++ children)))
    | none =>
        if reg.isEmpty then ([], .fallThrough)
        else ([], .dirNode none (nodeChildren pfx reg))
  | c :: rest =>
    match regAt reg with
    | some (.mount entries) => ([], mountNode entries (c :: rest))
    | some (.dir deps berr children) =>
        let bodySub := regDescend (match berr with | some _ => [] | none => children) c
        let explSub := regDescend reg c
        if bodySub.isEmpty then
          if explSub.isEmpty then ([], .fallThrough)
          else route (pfx ++ [c]) explSub rest
        else
          let ce := route (pfx ++ [c]) (explSub ++ bodySub) rest
          ((pfx, deps) :: ce.1, ce.2)
    | some (.server body) =>
        let explSub := regDescend reg c
        if explSub.isEmpty then
          let ds := body (joinKey (pfx ++ c :: rest))
          ([], .serveGen (pfx ++ c :: rest) ds.1 ds.2)
        else route (pfx ++ [c]) explSub rest
    | some (.file _ _) =>
        let explSub := regDescend reg c
        if explSub.isEmpty then ([], .fallThrough)
        else route (pfx ++ [c]) explSub rest
    | none =>
        let explSub := regDescend reg c
        if explSub.isEmpty then ([], .fallThrough)
        else route (pfx ++ [c]) explSub rest

instance {ε α : Type} [DecidableEq ε] [DecidableEq α] : DecidableEq (Except ε α) := fun x y =>
  match x, y with
  | .ok a, .ok b => decidable_of_iff (a = b) (by simp)
  | .error a, .error b => decidable_of_iff (a = b) (by simp)
  | .ok _, .error _ => isFalse (by simp)
  | .error _, .ok _ => isFalse (by simp)

/-- A generator-cache entry: the materialized value (file data for file
generators and servers, nothing for directory generators) together with
the dependency keys the body consulted. -/
structure GEntry where
  value : Option String
  deps : List Key
  deriving DecidableEq, Repr

/-- Modelled from the spec: the session state (§4.H) — the two cache
tiers of §4.C (`genCache` persists across reads and is only evicted by
change flushing; `readCache` holds reads of the underlying FS and is
fully reset at the start of each sync pass), the accumulated change
set, and run logs modelling the counters the tests place inside
generator bodies (`genRunLog`) and inside the base FS (`baseReadLog`) —
`List.count` of a key gives the counter value. -/
structure St where
  genCache : List (Key × GEntry)
  readCache : List (Key × Except Err BNode)
  changes : List Key
  genRunLog : List Key
  baseReadLog : List Key
  deriving DecidableEq, Repr

/-- The fresh session state. -/
def st0 : St := ⟨[], [], [], [], []⟩

/-- Read a path from the base filesystem through the read cache,
logging an actual base access on a cache miss; results (including the
not-found sentinel) are cached. -/
def readBase (base : Base) (p : Key) (st : St) : Except Err BNode × St :=
  match lookupA st.readCache p with
  | some r => (r, st)
  | none =>
      let r := baseNode base p
      (r, { st with readCache := (p, r) :: st.readCache,
                    baseReadLog := p :: st.baseReadLog })

/-- The type of the recursive reader handed to generator runs to read
their dependencies (the scoped FS view). -/
abbrev Rd := Key → St → Except Err Unit × St

/-- Read a generator's dependency paths in order through the scoped
reader; the first failure aborts. -/
def readDeps (rd : Rd) : List Key → St → Except Err Unit × St
  | [], st => (.ok (), st)
  | d :: ds, st =>
      match rd d st with
      | (.ok _, st') => readDeps rd ds st'
      | (.error e, st') => (.error e, st')

/-- Atomic keyed store into the generator cache (`set(key, value,
deps)` of §4.C): a key already present keeps its entry. -/
def cacheInsert (l : List (Key × GEntry)) (k : Key) (e : GEntry) : List (Key × GEntry) :=
  match lookupA l k with
  | some _ => l
  | none => (k, e) :: l

/-- Run a generator through the generator cache: a hit is served
without reading dependencies and without running the body; a miss
reads the dependencies, logs the run, and caches the result — a
generator failure is never cached (a failed read is retried on next
access, §7). -/
def runCached (rd : Rd) (key : Key) (deps : List Key) (res : Except Err (Option String))
    (st : St) : Except Err (Option String) × St :=
  match lookupA st.genCache key with
  | some e => (.ok e.value, st)
  | none =>
      match readDeps rd deps st with
      | (.error e, st') => (.error e, st')
      | (.ok _, st') =>
          let st'' := { st' with genRunLog := key :: st'.genRunLog }
          match res with
          | .ok v => (.ok v, { st'' with genCache := cacheInsert st''.genCache key ⟨v, deps⟩ })
          | .error e => (.error e, st'')

/-- Run the chain of directory generators a route passes through. -/
def runChain (rd : Rd) : List (Key × List Key) → St → Except Err Unit × St
  | [], st => (.ok (), st)
  | (k, ds) :: rest, st =>
      match runCached rd k ds (.ok none) st with
      | (.ok _, st') => runChain rd rest st'
      | (.error e, st') => (.error e, st')

/-- Enumerate a directory's children: child file generators are run
(through the cache); a child failing with the not-exist sentinel is
omitted from the listing, any other failure surfaces (§7). -/
def runChildren (rd : Rd) : List (String × ChildInfo) → St → Except Err (List (String × Bool)) × St
  | [], st => (.ok [], st)
  | (c, .stubDir) :: rest, st =>
      match runChildren rd rest st with
      | (.ok l, st') => (.ok ((c, true) :: l), st')
      | (.error e, st') => (.error e, st')
  | (c, .stubFile) :: rest, st =>
      match runChildren rd rest st with
      | (.ok l, st') => (.ok ((c, false) :: l), st')
      | (.error e, st') => (.error e, st')
  | (c, .fileRun k ds res) :: rest, st =>
      match runCached rd k ds (res.map some) st with
      | (.ok _, st') =>
          match runChildren rd rest st' with
          | (.ok l, st'') => (.ok ((c, false) :: l), st'')
          | (.error e, st'') => (.error e, st'')
      | (.error .notExist, st') => runChildren rd rest st'
      | (.error e, st') => (.error e, st')

/-- A node of the combined virtual filesystem. -/
inductive VNode where
  | file (data : String)
  | dir (kids : List (String × Bool))
  deriving DecidableEq, Repr

/-- Fall through to the base filesystem (§4.E: on not-found from the
generator tree the overlay consults the base FS). -/
def baseFall (base : Base) (p : Key) (st : St) : Except Err VNode × St :=
  match readBase base p st with
  | (.ok (.file d), st') => (.ok (.file d), st')
  | (.ok (.dir kids), st') => (.ok (.dir kids), st')
  | (.error e, st') => (.error e, st')

/-- Union a generator-side directory with the base filesystem's
children at the same path: union by name, generator side wins on name
collisions, sorted (§4.E). -/
def mergeDir (base : Base) (p : Key) (gkids : List (String × Bool)) (st : St) :
    Except Err VNode × St :=
  match readBase base p st with
  | (.ok (.dir bkids), st') => (.ok (.dir (sortKids (dedupKids [] (gkids ++ bkids)))), st')
  | (.ok (.file _), st') => (.ok (.dir gkids), st')
  | (.error .notExist, st') => (.ok (.dir gkids), st')
  | (.error e, st') => (.error e, st')

/-- Finish a directory node: run the enumeration, then union with the
base filesystem's view of the same directory. -/
def dirFinish (rd : Rd) (base : Base) (p : Key) (children : List (String × ChildInfo))
    (st : St) : Except Err VNode × St :=
  match runChildren rd children st with
  | (.error e, st') => (.error e, st')
  | (.ok gkids, st') => mergeDir base p gkids st'

/-- Modelled from the spec: the merge overlay's read of path `p`
(§4.D/§4.E).  The generator tree is consulted first (running the route
chain of directory generators and the terminal generator through the
cache); the not-exist sentinel falls through to the base filesystem,
any other generator error surfaces.  `fuel` bounds the nesting depth of
generators reading other generated paths through their scoped FS. -/
def readPath (reg : Reg) (base : Base) : Nat → Key → St → Except Err VNode × St
  | 0, _, st => (.error .other, st)
  | f + 1, p, st =>
      let rd : Rd := fun k s =>
        match readPath reg base f k s with
        | (.ok _, s') => (.ok (), s')
        | (.error e, s') => (.error e, s')
      let ce := route [] reg p
      match runChain rd ce.1 st with
      | (.error e, st') => (.error e, st')
      | (.ok _, st') =>
          match ce.2 with
          | .fileGen k ds res =>
              match runCached rd k ds (res.map some) st' with
              | (.ok v, st'') => (.ok (.file (v.getD "")), st'')
              | (.error .notExist, st'') => baseFall base p st''
              | (.error e, st'') => (.error e, st'')
          | .serveGen k ds data =>
              match runCached rd k ds (.ok (some data)) st' with
              | (.ok v, st'') => (.ok (.file (v.getD "")), st'')
              | (.error .notExist, st'') => baseFall base p st''
              | (.error e, st'') => (.error e, st'')
          | .mountFile d => (.ok (.file d), st')
          | .dirNode drun children =>
              match drun with
              | some kde =>
                  match runCached rd kde.1 kde.2.1
                      (match kde.2.2 with | some e => .error e | none => .ok none) st' with
                  | (.ok _, st'') => dirFinish rd base p children st''
                  | (.error .notExist, st'') => baseFall base p st''
                  | (.error e, st'') => (.error e, st'')
              | none => dirFinish rd base p children st'
          | .fallThrough => baseFall base p st'
          | .invalidArg => (.error .invalid, st')

/-- Boolean membership of a key in a key list. -/
def keyIn (k : Key) (l : List Key) : Bool := l.any fun k' => decide (k' = k)

/-- One round of the worklist eviction: add every cache entry one of
whose dependency keys is already marked. -/
def evictStep (cache : List (Key × GEntry)) (acc : List Key) : List Key :=
  acc ++ cache.filterMap fun ke =>
    if !keyIn ke.1 acc && ke.2.deps.any (fun d => keyIn d acc) then some ke.1 else none

/-- Iterate the eviction round. -/
def evictIter (cache : List (Key × GEntry)) : Nat → List Key → List Key
  | 0, acc => acc
  | n + 1, acc => evictIter cache n (evictStep cache acc)

/-- The computed transitive-dependent closure of the changed keys over
the cache's inverse dependency index: iterating the round once per
cache entry reaches the fixed point. -/
def closureKeys (cache : List (Key × GEntry)) (changed : List Key) : List Key :=
  evictIter cache cache.length changed

/-- Modelled from the spec: `flushChanges` (§4.C) — for the changed
keys, compute the transitive-dependent closure via the inverse index
and evict all of it (which includes direct entries for the changed keys
themselves) from both cache tiers; the change set empties. -/
def flushChanges (st : St) : St :=
  match st.changes with
  | [] => st
  | _ :: _ =>
      let ev := closureKeys st.genCache st.changes
      { st with
        genCache := st.genCache.filter fun ke => !keyIn ke.1 ev
        readCache := st.readCache.filter fun ke => !keyIn ke.1 ev
        changes := [] }

/-- `change(q)`: mark a path dirty; eviction is deferred to the next
flush (which occurs at the start of the next sync or read). -/
def markChanged (st : St) (q : Key) : St := { st with changes := q :: st.changes }

/-- Number of cache keys not yet marked. -/
def evMeasure (cache : List (Key × GEntry)) (acc : List Key) : Nat :=
  ((cache.map Prod.fst).filter fun k => !keyIn k acc).length

/-- The transitive-dependent closure of the changed keys, as an
inductive specification: a changed key is in it, and an entry one of
whose dependencies is in it is in it. -/
inductive InClosure (cache : List (Key × GEntry)) (changed : List Key) : Key → Prop
  | base {k : Key} : k ∈ changed → InClosure cache changed k
  | step {k : Key} {e : GEntry} {d : Key} : (k, e) ∈ cache → d ∈ e.deps →
      InClosure cache changed d → InClosure cache changed k

/-- A session: the registered generator tree over a base filesystem. -/
structure FSys where
  reg : Reg
  base : Base

/-- Open a path given as segments: flush pending changes, then read
through the overlay. -/
def openSeg (fsys : FSys) (fuel : Nat) (p : Key) (st : St) : Except Err VNode × St :=
  readPath fsys.reg fsys.base fuel p (flushChanges st)

/-- The facade `open`: validate the textual name first — an invalid
name is rejected without consulting any generator and without touching
the session state. -/
def openS (fsys : FSys) (fuel : Nat) (name : String) (st : St) : Except Err VNode × St :=
  if validPath name then openSeg fsys fuel (segsOf name) st
  else (.error .invalid, st)

/-- `readFile` on segments: open and return the file's bytes. -/
def readFileSeg (fsys : FSys) (fuel : Nat) (p : Key) (st : St) : Except Err String × St :=
  match openSeg fsys fuel p st with
  | (.ok (.file d), st') => (.ok d, st')
  | (.ok (.dir _), st') => (.error .other, st')
  | (.error e, st') => (.error e, st')

/-- The facade `readFile`. -/
def readFileS (fsys : FSys) (fuel : Nat) (name : String) (st : St) : Except Err String × St :=
  match openS fsys fuel name st with
  | (.ok (.file d), st') => (.ok d, st')
  | (.ok (.dir _), st') => (.error .other, st')
  | (.error e, st') => (.error e, st')

/-- `readDir` on segments: open and return the sorted entries. -/
def readDirSeg (fsys : FSys) (fuel : Nat) (p : Key) (st : St) :
    Except Err (List (String × Bool)) × St :=
  match openSeg fsys fuel p st with
  | (.ok (.dir kids), st') => (.ok kids, st')
  | (.ok (.file _), st') => (.error .other, st')
  | (.error e, st') => (.error e, st')

/-- The facade `readDir`. -/
def readDirS (fsys : FSys) (fuel : Nat) (name : String) (st : St) :
    Except Err (List (String × Bool)) × St :=
  match openS fsys fuel name st with
  | (.ok (.dir kids), st') => (.ok kids, st')
  | (.ok (.file _), st') => (.error .other, st')
  | (.error e, st') => (.error e, st')

/-- What `stat` reports: the base name, whether the node is a
directory, and the size (length of the data for files, 0 for
directories). -/
structure StatInfo where
  name : String
  isDir : Bool
  size : Nat
  deriving DecidableEq, Repr

/-- `stat` on segments. -/
def statSeg (fsys : FSys) (fuel : Nat) (p : Key) (st : St) : Except Err StatInfo × St :=
  match openSeg fsys fuel p st with
  | (.ok (.file d), st') => (.ok ⟨(p.getLast?).getD ".", false, d.length⟩, st')
  | (.ok (.dir _), st') => (.ok ⟨(p.getLast?).getD ".", true, 0⟩, st')
  | (.error e, st') => (.error e, st')

/-- The facade `stat`. -/
def statS (fsys : FSys) (fuel : Nat) (name : String) (st : St) : Except Err StatInfo × St :=
  match openS fsys fuel name st with
  | (.ok (.file d), st') => (.ok ⟨((segsOf name).getLast?).getD ".", false, d.length⟩, st')
  | (.ok (.dir _), st') => (.ok ⟨((segsOf name).getLast?).getD ".", true, 0⟩, st')
  | (.error e, st') => (.error e, st')

/-- Reset the read cache (start of every sync pass; the generator
cache is preserved). -/
def resetRead (st : St) : St := { st with readCache := [] }

/-- Depth-first materialization of the pending paths: files are read
through the normal read path and collected for the sink, directories
are expanded into their children.  `fuel` bounds the total number of
nodes visited. -/
def walkAll (reg : Reg) (base : Base) : Nat → List Key → St →
    Except Err (List (Key × String)) × St
  | _, [], st => (.ok [], st)
  | 0, _ :: _, st => (.error .other, st)
  | f + 1, p :: rest, st =>
      match readPath reg base (f + 1) p st with
      | (.error e, st') => (.error e, st')
      | (.ok (.file d), st') =>
          match walkAll reg base f rest st' with
          | (.ok l, st'') => (.ok ((p, d) :: l), st'')
          | (.error e, st'') => (.error e, st'')
      | (.ok (.dir kids), st') =>
          walkAll reg base f (kids.map (fun e => p ++ [e.1]) ++ rest) st'

/-- Modelled from the spec: the sync pass (§4.G) — flush pending
changes, reset the read cache (the generator cache is preserved), then
walk the subtree at `p` reading every file through the normal read
path; the materialized files are what the sink receives. -/
def syncSeg (fsys : FSys) (fuel : Nat) (p : Key) (st : St) :
    Except Err (List (Key × String)) × St :=
  walkAll fsys.reg fsys.base fuel [p] (resetRead (flushChanges st))

/-- Session-state extension order: every cached entry is preserved
(caches only grow during reads) and the change set is untouched. -/
def Ext (s s' : St) : Prop :=
  (∀ k e, lookupA s.genCache k = some e → lookupA s'.genCache k = some e) ∧
  (∀ k r, lookupA s.readCache k = some r → lookupA s'.readCache k = some r) ∧
  s'.changes = s.changes

/-- Monotonicity property of a scoped reader: it only extends the
session state. -/
def RdExt (rd : Rd) : Prop :=
  ∀ (k : Key) (s : St) (r : Except Err Unit) (s' : St), rd k s = (r, s') → Ext s s'

/-- The cache key of a terminal that runs a caching generator for the
requested path itself (file generators and file servers). -/
def endKey : REnd → Option Key
  | .fileGen k _ _ => some k
  | .serveGen k _ _ => some k
  | _ => none

/-- Whether the generator tree serves the path itself through a caching
generator (a file generator or file server at exactly that path) — the
"generated path" of the idempotence property. -/
def genServed (reg : Reg) (p : Key) : Bool :=
  (endKey (route [] reg p).2).isSome

/-! ## Concrete sessions from the test-suite scenarios -/

/-- Key of the view generator of `TestCacheGenerateFile`. -/
def vK : Key := ["bud", "internal", "app", "view", "view.go"]

/-- Key of the web generator of `TestCacheGenerateFile` (it reads the
generated `view.go`). -/
def wK : Key := ["bud", "internal", "app", "web", "web.go"]

/-- Base file `view/index.svelte`. -/
def iK : Key := ["view", "index.svelte"]

/-- Base file `view/about/index.svelte`. -/
def aK : Key := ["view", "about", "index.svelte"]

/-- The session of `TestCacheGenerateFile`: a view generator depending
on two base files, and a web generator depending on the generated
`view.go`. -/
def fsC8 : FSys :=
  ⟨[(vK, .file [iK, aK] (.ok "package view")),
    (wK, .file [vK] (.ok "package web"))],
   [(iK, "index"), (aK, "about")]⟩

/-- State after the initial full sync. -/
def sC8a : St := (syncSeg fsC8 20 [] st0).2

/-- State after a second full sync with no changes. -/
def sC8b : St := (syncSeg fsC8 20 [] sC8a).2

/-- State after `change("view/about/index.svelte")` and a third full
sync. -/
def sC8c : St := (syncSeg fsC8 20 [] (markChanged sC8b aK)).2

/-- A generator cache primed as by `TestCacheGenerateDir`: the dir
generator stat'ed `node_modules`, the file generator read the child
directory `node_modules/svelte`. -/
def stC1 : St :=
  { st0 with genCache :=
      [(["bud", "internal", "node_modules"], ⟨none, [["node_modules"]]⟩),
       (["bud", "internal", "node_modules", "svelte.js"],
        ⟨some "svelte.js", [["node_modules", "svelte"]]⟩)] }

/-- A single cached file generator session (for the idempotence
witness). -/
def fsC2 : FSys := ⟨[(["a.txt"], .file [] (.ok "b"))], []⟩

/-- The failing directory generator of `TestGenerateDirNotExists`. -/
def fsC5 : FSys := ⟨[(["bud", "public"], .dir [] (some .notExist) [])], []⟩

/-- The registry of `TestFS` (two file generators under `bud`). -/
def fsC6 : FSys :=
  ⟨[(["bud", "public", "tailwind", "tailwind.css"], .file [] (.ok "/* tailwind */")),
    (["bud", "view", "index.svelte"], .file [] (.ok "/* svelte */"))], []⟩

/-- The file server of `TestServeFile`: the body emits
`target + "'s data"`. -/
def fsC7 : FSys := ⟨[(["duo", "view"], .server fun t => ([], t ++ "\x27s data"))], []⟩

/-- The `go.mod` generator of `TestGoModGoMod`. -/
def fsC9 : FSys :=
  ⟨[(["go.mod"], .file [] (.ok "module app.com\nrequire mod.test/module v1.2.4"))], []⟩

end BudFS

/-! ## Theorems -/

/-- C10: `valid.Dir name` returns true iff `name` is non-empty, its
first byte is neither `_` nor `.`, it is not the reserved word `bud`,
and lower-casing leaves it unchanged; and `valid.Dir` is the exact
negation of the `invalidDir` predicate. -/
theorem valid_dir_characterization (name : String) :
    (valid.Dir name = true ↔
      (¬ name = "" ∧ ¬ name.front = '_' ∧ ¬ name.front = '.' ∧ ¬ name = "bud" ∧
        valid.strToLower name = name)) ∧ valid.Dir name = !valid.invalidDir name := by
  refine ⟨?_, rfl⟩
  simp [valid.Dir, valid.invalidDir]
  tauto

namespace BudFS

set_option maxRecDepth 10000 in
/-- C8: in the two-base-file scenario of `TestCacheGenerateFile`, after
an initial full sync every generator-run counter and base-file read
counter equals 1; a second sync with no changes leaves the generator
counters at 1 while each base file is re-read exactly once more
(the read cache is reset at the start of every sync, the generator
cache is preserved); and after a change of one base file plus a sync
the dependent view generator's counter advances by exactly one. -/
theorem cache_generate_file_counts :
    ((syncSeg fsC8 20 [] st0).1.isOk ∧
      sC8a.genRunLog.count vK = 1 ∧ sC8a.genRunLog.count wK = 1 ∧
      sC8a.baseReadLog.count iK = 1 ∧ sC8a.baseReadLog.count aK = 1) ∧
    (sC8b.genRunLog.count vK = 1 ∧ sC8b.genRunLog.count wK = 1 ∧
      sC8b.baseReadLog.count iK = 2 ∧ sC8b.baseReadLog.count aK = 2) ∧
    (sC8c.genRunLog.count vK = 2 ∧ sC8c.genRunLog.count wK = 2 ∧
      sC8c.baseReadLog.count iK = 3 ∧ sC8c.baseReadLog.count aK = 3) := by
  decide

set_option maxRecDepth 10000 in
/-- C5 counterexample: with the directory generator for `bud/public`
failing with the not-exist sentinel (`TestGenerateDirNotExists`),
`readDir("bud/public")` does not return an empty entry list with nil
error — it returns a not-exist error. -/
theorem dirgen_notexist_readdir_fails :
    (readDirS fsC5 5 "bud/public" st0).1 = .error .notExist ∧
      (readDirS fsC5 5 "bud/public" st0).1 ≠ .ok [] := by
  decide

set_option maxRecDepth 10000 in
/-- C6 counterexample: a name containing a backslash is not rejected as
invalid — `open("bud\public")` on the `TestFS` session consults the
tree, finds nothing, and returns a not-exist error, not an
invalid-argument error. -/
theorem backslash_name_not_invalid :
    (openS fsC6 5 "bud\\public" st0).1 = .error .notExist ∧
      (openS fsC6 5 "bud\\public" st0).1 ≠ .error .invalid := by
  decide

/-! ### Route evaluation lemmas -/

/-- An empty registry routes every path to the base fall-through. -/
theorem route_nil_reg (pfx : Key) (q : Key) : route pfx [] q = ([], .fallThrough) := by
  cases q <;> simp [route, regAt, regDescend]

/-- No registration sits at the node itself once every key has been
shifted under a leading segment. -/
theorem regAt_shift (a : String) (t : Key → Key) (reg : Reg) :
    regAt (reg.map fun kg => (a :: t kg.1, kg.2)) = none := by
  simp [regAt, List.filterMap_map, Function.comp]

/-- Descending into the leading segment undoes the shift. -/
theorem regDescend_shift (a : String) (t : Key → Key) (reg : Reg) :
    regDescend (reg.map fun kg => (a :: t kg.1, kg.2)) a = reg.map fun kg => (t kg.1, kg.2) := by
  simp [regDescend, List.filterMap_map, Function.comp]
  induction reg with
  | nil => rfl
  | cons kg rest ih => simp [ih]

/-- Dispatch through a common prefix: routing `p ++ q` in a registry
whose keys all start with `p` is routing `q` at the node `p`. -/
theorem route_shift (reg : Reg) : ∀ (p pfx q : Key),
    route pfx (reg.map fun kg => (p ++ kg.1, kg.2)) (p ++ q) = route (pfx ++ p) reg q := by
  intro p
  induction p with
  | nil =>
      intro pfx q
      simp
  | cons a p' ih =>
      intro pfx q
      cases reg with
      | nil => simp [route_nil_reg]
      | cons kg0 rest =>
          show route pfx ((kg0 :: rest).map fun kg => (a :: (p' ++ kg.1), kg.2))
              (a :: (p' ++ q)) = _
          rw [route]
          rw [regAt_shift a (fun k => p' ++ k) (kg0 :: rest)]
          simp only []
          rw [regDescend_shift a (fun k => p' ++ k) (kg0 :: rest)]
          simp only [List.map_cons, List.isEmpty_cons, if_neg Bool.false_ne_true]
          rw [show ((p' ++ kg0.1, kg0.2) :: rest.map fun kg => (p' ++ kg.1, kg.2)) =
                ((kg0 :: rest).map fun kg => (p' ++ kg.1, kg.2)) from rfl]
          rw [ih]
          simp

/-- A file generator at the node answers the node itself. -/
theorem route_node_file (pfx : Key) (ds : List Key) (res : Except Err String) :
    route pfx [([], .file ds res)] [] = ([], .fileGen pfx ds res) := by
  simp [route, regAt]

/-- Files have no children: any strict extension of a file generator's
path falls through as not-found. -/
theorem route_node_file_ext (pfx : Key) (ds : List Key) (res : Except Err String)
    (c : String) (rest : Key) :
    route pfx [([], .file ds res)] (c :: rest) = ([], .fallThrough) := by
  simp [route, regAt, regDescend]

/-- The mount quirk: a mount at the node shadows a file generator
registered one segment deeper inside the mount's subtree. -/
theorem route_node_mount_pair (pfx : Key) (gf : Gen) (c : String) (mdata : String)
    (ms : List (Key × String)) :
    route pfx [([c], gf), ([], .mount (([c], mdata) :: ms))] [c] = ([], .mountFile mdata) := by
  simp [route, regAt, mountNode, lookupA]

/-- A file server answers any non-empty suffix with its body applied to
the full requested path. -/
theorem route_node_server (pfx : Key) (body : String → List Key × String) (c : String) (s' : Key) :
    route pfx [([], .server body)] (c :: s') =
      ([], .serveGen (pfx ++ c :: s') (body (joinKey (pfx ++ c :: s'))).1
        (body (joinKey (pfx ++ c :: s'))).2) := by
  simp [route, regAt, regDescend]

/-- Listing a file-server prefix itself is invalid. -/
theorem route_node_server_list (pfx : Key) (body : String → List Key × String) :
    route pfx [([], .server body)] [] = ([], .invalidArg) := by
  simp [route, regAt]

/-- A node with a single file generator one segment deeper is a
synthesized directory whose enumeration runs that generator. -/
theorem route_node_parent_file (pfx : Key) (c : String) (ds : List Key)
    (res : Except Err String) :
    route pfx [([c], .file ds res)] [] =
      ([], .dirNode none [(c, .fileRun (pfx ++ [c]) ds res)]) := by
  simp [route, regAt, nodeChildren, dedupStrs, sortStrs, insortStr, childClass, regDescend]

/-- A failing directory generator at the node is run and its error
propagates. -/
theorem route_node_dir_err (pfx : Key) (ds : List Key) (e : Err) (ch : List (Key × Gen)) :
    route pfx [([], .dir ds (some e) ch)] [] = ([], .dirNode (some (pfx, ds, some e)) []) := by
  simp [route, regAt]

/-- Routing a singleton registration: consume the registered path, then
dispatch the remaining suffix at its node. -/
theorem route_single_ext (p q : Key) (g : Gen) :
    route [] [(p, g)] (p ++ q) = route p [([], g)] q := by
  have h := route_shift [([], g)] p [] q
  simpa using h

/-- Routing the parent directory of a single deeper registration. -/
theorem route_parent_single (p : Key) (c : String) (g : Gen) :
    route [] [(p ++ [c], g)] p = route p [([c], g)] [] := by
  have h := route_shift [([c], g)] p [] []
  simpa using h

/-! ### Interpreter evaluation lemmas -/

/-- Flushing a fresh state is the identity. -/
theorem flush_st0 : flushChanges st0 = st0 := rfl

/-- Falling through to a base that does not provide the path yields
not-exist (and caches the sentinel). -/
theorem baseFall_ne {base : Base} {p : Key} {st : St}
    (hb : baseNode base p = .error .notExist) (hr : lookupA st.readCache p = none) :
    baseFall base p st =
      (.error .notExist,
       { st with readCache := (p, .error .notExist) :: st.readCache,
                 baseReadLog := p :: st.baseReadLog }) := by
  simp [baseFall, readBase, hr, hb]

/-- Reading a path routed to the base fall-through. -/
theorem readPath_route_fall {reg : Reg} {base : Base} {p : Key} {f : Nat} {st : St}
    (h : route [] reg p = ([], .fallThrough)) :
    readPath reg base (f + 1) p st = baseFall base p st := by
  simp [readPath, h, runChain]

/-- Reading a path routed to the invalid-argument terminal. -/
theorem readPath_route_invalid {reg : Reg} {base : Base} {p : Key} {f : Nat} {st : St}
    (h : route [] reg p = ([], .invalidArg)) :
    readPath reg base (f + 1) p st = (.error .invalid, st) := by
  simp [readPath, h, runChain]

/-- Reading a path served by a mount is stateless. -/
theorem readPath_route_mount {reg : Reg} {base : Base} {p : Key} {d : String} {f : Nat} {st : St}
    (h : route [] reg p = ([], .mountFile d)) :
    readPath reg base (f + 1) p st = (.ok (.file d), st) := by
  simp [readPath, h, runChain]

/-- Running an uncached dependency-free file generator: the body runs
once, the result is cached, the file is returned. -/
theorem readPath_route_file_ok {reg : Reg} {base : Base} {p k : Key} {data : String}
    {f : Nat} {st : St} (h : route [] reg p = ([], .fileGen k [] (.ok data)))
    (hc : lookupA st.genCache k = none) :
    readPath reg base (f + 1) p st =
      (.ok (.file data),
       { st with genRunLog := k :: st.genRunLog,
                 genCache := (k, ⟨some data, []⟩) :: st.genCache }) := by
  simp [readPath, h, runChain, runCached, hc, readDeps, Except.map, cacheInsert]

/-- A file generator failing with the not-exist sentinel over a base
that does not provide the path: the read fails with not-exist and the
failure is not cached in the generator cache. -/
theorem readPath_route_file_ne_base {reg : Reg} {base : Base} {p k : Key} {f : Nat} {st : St}
    (h : route [] reg p = ([], .fileGen k [] (.error .notExist)))
    (hc : lookupA st.genCache k = none)
    (hb : baseNode base p = .error .notExist)
    (hrc : lookupA st.readCache p = none) :
    readPath reg base (f + 1) p st =
      (.error .notExist,
       { st with genRunLog := k :: st.genRunLog,
                 readCache := (p, .error .notExist) :: st.readCache,
                 baseReadLog := p :: st.baseReadLog }) := by
  simp [readPath, h, runChain, runCached, hc, readDeps, Except.map, baseFall, readBase, hrc, hb]

/-- Running an uncached dependency-free file server. -/
theorem readPath_route_serve_ok {reg : Reg} {base : Base} {p k : Key} {data : String}
    {f : Nat} {st : St} (h : route [] reg p = ([], .serveGen k [] data))
    (hc : lookupA st.genCache k = none) :
    readPath reg base (f + 1) p st =
      (.ok (.file data),
       { st with genRunLog := k :: st.genRunLog,
                 genCache := (k, ⟨some data, []⟩) :: st.genCache }) := by
  simp [readPath, h, runChain, runCached, hc, readDeps, cacheInsert]

/-- A directory generator failing with the not-exist sentinel over a
base that does not provide the path: stat and read-dir of the path both
fail with not-exist. -/
theorem readPath_route_dir_err_base {reg : Reg} {base : Base} {p k : Key} {f : Nat} {st : St}
    (h : route [] reg p = ([], .dirNode (some (k, [], some .notExist)) []))
    (hc : lookupA st.genCache k = none)
    (hb : baseNode base p = .error .notExist)
    (hrc : lookupA st.readCache p = none) :
    readPath reg base (f + 1) p st =
      (.error .notExist,
       { st with genRunLog := k :: st.genRunLog,
                 readCache := (p, .error .notExist) :: st.readCache,
                 baseReadLog := p :: st.baseReadLog }) := by
  simp [readPath, h, runChain, runCached, hc, readDeps, baseFall, readBase, hrc, hb]

/-- Enumerating a directory whose only child generator fails with the
not-exist sentinel: the child is omitted and the listing is empty. -/
theorem readPath_route_dir_child_ne {reg : Reg} {base : Base} {p k : Key} {c : String}
    {f : Nat} {st : St}
    (h : route [] reg p = ([], .dirNode none [(c, .fileRun k [] (.error .notExist))]))
    (hc : lookupA st.genCache k = none)
    (hb : baseNode base p = .error .notExist)
    (hr : lookupA st.readCache p = none) :
    (readPath reg base (f + 1) p st).1 = .ok (.dir []) := by
  simp [readPath, h, runChain, runCached, hc, readDeps, Except.map, dirFinish, runChildren,
    mergeDir, readBase, hr, hb]

/-! ### Claim theorems -/

/-- C3: when both a registered generator and the base filesystem
provide a path, `readFile` returns the generator's bytes — for every
path and every base filesystem (in particular one providing the same
path), reading the path in a fresh session over a registry with a file
generator producing `gdata` at that path yields `gdata`, never the base
bytes. -/
theorem generator_priority (p : Key) (gdata : String) (base : Base) (f : Nat) :
    (readFileSeg ⟨[(p, .file [] (.ok gdata))], base⟩ (f + 1) p st0).1 = .ok gdata := by
  have h := route_single_ext p [] (Gen.file [] (.ok gdata))
  rw [List.append_nil] at h
  rw [route_node_file] at h
  have hc : lookupA st0.genCache p = none := rfl
  have hrp := @readPath_route_file_ok _ base _ _ _ f st0 h hc
  simp [readFileSeg, openSeg, flush_st0, hrp]

/-- C4: a mount at a prefix shadows a file generator registered at an
overlapping path inside the mount's subtree — with a FileGenerator at
`q ++ [c]` and a mounted sub-FS at `q` containing `[c] → mdata`,
reading `q ++ [c]` returns the mount's content, not the generator's
(the mount is registered at the prefix per §3; in the test it is
established by the DirGenerator body at that prefix calling `Mount`). -/
theorem mount_shadows_file_generator (q : Key) (c : String) (gdeps : List Key)
    (gres : Except Err String) (mdata : String) (ms : List (Key × String)) (base : Base)
    (f : Nat) :
    (readFileSeg ⟨[(q ++ [c], .file gdeps gres), (q, .mount (([c], mdata) :: ms))], base⟩
      (f + 1) (q ++ [c]) st0).1 = .ok mdata := by
  have h := route_shift [([c], Gen.file gdeps gres), ([], Gen.mount (([c], mdata) :: ms))] q [] [c]
  simp only [List.map_cons, List.map_nil, List.append_nil, List.nil_append] at h
  rw [route_node_mount_pair] at h
  have hrp := @readPath_route_mount _ base _ _ f st0 h
  simp [readFileSeg, openSeg, flush_st0, hrp]

/-- C9: for a FileGenerator registered at exact path `fkey` (a callback
and an embedded file are both file generators with a fixed output in
this model), stat and open of any strict extension `fkey ++ c0 :: ext`
return not-exist (files have no children; the base provides nothing
there), while stat of `fkey` itself succeeds and reports the file's
base name. -/
theorem file_generator_no_children (fkey : Key) (data : String) (c0 : String) (ext : Key)
    (base : Base) (f : Nat) (hb : baseNode base (fkey ++ c0 :: ext) = .error .notExist) :
    ((statSeg ⟨[(fkey, .file [] (.ok data))], base⟩ (f + 1) (fkey ++ c0 :: ext) st0).1
        = .error .notExist ∧
      (openSeg ⟨[(fkey, .file [] (.ok data))], base⟩ (f + 1) (fkey ++ c0 :: ext) st0).1
        = .error .notExist) ∧
    (statSeg ⟨[(fkey, .file [] (.ok data))], base⟩ (f + 1) fkey st0).1 =
      .ok ⟨(fkey.getLast?).getD ".", false, data.length⟩ := by
  have hx := route_single_ext fkey (c0 :: ext) (Gen.file [] (.ok data))
  rw [route_node_file_ext] at hx
  have hfall := @readPath_route_fall _ base _ f st0 hx
  have hbf := @baseFall_ne base (fkey ++ c0 :: ext) st0 hb rfl
  have h1 := route_single_ext fkey [] (Gen.file [] (.ok data))
  rw [List.append_nil] at h1
  rw [route_node_file] at h1
  have hok := @readPath_route_file_ok _ base _ _ _ f st0 h1 rfl
  refine ⟨⟨?_, ?_⟩, ?_⟩
  · simp [statSeg, openSeg, flush_st0, hfall, hbf]
  · simp [openSeg, flush_st0, hfall, hbf]
  · simp [statSeg, openSeg, flush_st0, hok]

/-- C9 witness: the `TestGoModGoMod` instance — stat/open of
`go.mod/go.mod` are not-exist while stat of `go.mod` reports name
`go.mod` (and the embedded content's 45 bytes). -/
theorem file_generator_no_children_check :
    (statSeg fsC9 3 ["go.mod", "go.mod"] st0).1 = .error .notExist ∧
    (openSeg fsC9 3 ["go.mod", "go.mod"] st0).1 = .error .notExist ∧
    (statSeg fsC9 3 ["go.mod"] st0).1 = .ok ⟨"go.mod", false, 45⟩ := by
  have h := file_generator_no_children ["go.mod"]
      "module app.com\nrequire mod.test/module v1.2.4" "go.mod" [] [] 2 (by decide)
  refine ⟨h.1.1, h.1.2, ?_⟩
  have h3 := h.2
  revert h3
  decide

/-- C7: for a FileServer registered at prefix `q`, `readDir(q)` returns
an invalid-argument error, and for every non-empty suffix `c :: s'` the
server body is invoked with the target pre-populated to the full
requested path: `readFile` returns the body's output at that target
(for a body without dependencies). -/
theorem serve_file_targets (q : Key) (c : String) (s' : Key)
    (body : String → List Key × String) (base : Base) (f : Nat)
    (hd : (body (joinKey (q ++ c :: s'))).1 = []) :
    (readDirSeg ⟨[(q, .server body)], base⟩ (f + 1) q st0).1 = .error .invalid ∧
    (readFileSeg ⟨[(q, .server body)], base⟩ (f + 1) (q ++ c :: s') st0).1 =
      .ok (body (joinKey (q ++ c :: s'))).2 := by
  have h0 := route_single_ext q [] (Gen.server body)
  rw [List.append_nil] at h0
  rw [route_node_server_list] at h0
  have hinv := @readPath_route_invalid _ base _ f st0 h0
  have h1 := route_single_ext q (c :: s') (Gen.server body)
  rw [route_node_server] at h1
  rw [hd] at h1
  have hsv := @readPath_route_serve_ok _ base _ _ _ f st0 h1 rfl
  constructor
  · simp [readDirSeg, openSeg, flush_st0, hinv]
  · simp [readFileSeg, openSeg, flush_st0, hsv]

/-- C7 witness: the `TestServeFile` instance — a body emitting
`target + "'s data"` yields the 29-byte `duo/view/_index.svelte's data`
for `duo/view/_index.svelte`, and `readDir("duo/view")` is invalid. -/
theorem serve_file_targets_check :
    (readDirSeg fsC7 3 ["duo", "view"] st0).1 = .error .invalid ∧
    (readFileSeg fsC7 3 ["duo", "view", "_index.svelte"] st0).1 =
      .ok "duo/view/_index.svelte\x27s data" ∧
    ("duo/view/_index.svelte\x27s data").length = 29 := by
  have h := serve_file_targets ["duo", "view"] "_index.svelte" []
      (fun t => ([], t ++ "\x27s data")) [] 2 (by decide)
  refine ⟨h.1, ?_, by decide⟩
  have h2 := h.2
  simpa using h2

/-- C5 (amended): when a file generator listed inside directory `p`
fails with the not-exist sentinel, `readDir(p)` returns an empty entry
list with nil error and stat of the generator's own path returns
not-exist; when the directory generator for `p` itself fails with the
sentinel, stat of `p` and `readDir(p)` both return a not-exist error
(the claim's empty-listing-with-nil-error shape holds only in the
file-generator-inside case). -/
theorem notexist_propagation (p : Key) (c : String) (base : Base) (f : Nat)
    (hb1 : baseNode base p = .error .notExist)
    (hb2 : baseNode base (p ++ [c]) = .error .notExist) :
    ((readDirSeg ⟨[(p ++ [c], .file [] (.error .notExist))], base⟩ (f + 1) p st0).1 = .ok [] ∧
      (statSeg ⟨[(p ++ [c], .file [] (.error .notExist))], base⟩ (f + 1) (p ++ [c]) st0).1
        = .error .notExist) ∧
    ((statSeg ⟨[(p, .dir [] (some .notExist) [])], base⟩ (f + 1) p st0).1 = .error .notExist ∧
      (readDirSeg ⟨[(p, .dir [] (some .notExist) [])], base⟩ (f + 1) p st0).1
        = .error .notExist) := by
  have ha := route_parent_single p c (Gen.file [] (.error .notExist))
  rw [route_node_parent_file] at ha
  have hlist := @readPath_route_dir_child_ne _ base _ _ c f st0 ha rfl hb1 rfl
  have ha2 := route_single_ext (p ++ [c]) [] (Gen.file [] (.error .notExist))
  rw [List.append_nil] at ha2
  rw [route_node_file] at ha2
  have hne := @readPath_route_file_ne_base _ base _ _ f st0 ha2 rfl hb2 rfl
  have hb := route_single_ext p [] (Gen.dir [] (some .notExist) [])
  rw [List.append_nil] at hb
  rw [route_node_dir_err] at hb
  have hde := @readPath_route_dir_err_base _ base _ _ f st0 hb rfl hb1 rfl
  refine ⟨⟨?_, ?_⟩, ?_, ?_⟩
  · rcases hrp : readPath [(p ++ [c], Gen.file [] (.error .notExist))] base (f + 1) p st0
      with ⟨r, st'⟩
    have : r = .ok (.dir []) := by rw [← hlist, hrp]
    subst this
    simp [readDirSeg, openSeg, flush_st0, hrp]
  · simp [statSeg, openSeg, flush_st0, hne]
  · simp [statSeg, openSeg, flush_st0, hde]
  · simp [readDirSeg, openSeg, flush_st0, hde]

/-- C5 witness: the `TestReadDirNotExists` and `TestGenerateDirNotExists`
instances — `readDir("bud/controller")` is empty with nil error while
stat of the failing child is not-exist, and for the failing directory
generator at `bud/public` both stat and readDir fail with not-exist. -/
theorem notexist_propagation_check :
    (readDirSeg ⟨[(["bud", "controller", "controller.go"], .file [] (.error .notExist))], []⟩
        3 ["bud", "controller"] st0).1 = .ok [] ∧
    (statSeg ⟨[(["bud", "controller", "controller.go"], .file [] (.error .notExist))], []⟩
        3 ["bud", "controller", "controller.go"] st0).1 = .error .notExist ∧
    (statSeg fsC5 3 ["bud", "public"] st0).1 = .error .notExist ∧
    (readDirSeg fsC5 3 ["bud", "public"] st0).1 = .error .notExist := by
  have h := notexist_propagation ["bud", "controller"] "controller.go" [] 2 (by decide) (by decide)
  have h2 := notexist_propagation ["bud", "public"] "x" [] 2 (by decide) (by decide)
  exact ⟨h.1.1, h.1.2, h2.2.1, h2.2.2⟩

/-- C6 (amended): every name with an empty, `.` or `..` slash-separated
element (which covers leading slashes, `..`, empty segments, and
trailing `.` segments such as `bud/view/.`) is rejected by `open` with
an invalid-argument error, for every session and state, without
consulting any generator and without touching the state; the bare root
name `.` is valid and opens successfully (a backslash, by contrast,
does not make a name invalid — see the counterexample). -/
theorem path_validity :
    (∀ (name : String) (fsys : FSys) (fuel : Nat) (st : St),
        ¬ name = "." →
        ((splitSegs name).any fun seg => seg == "" || seg == "." || seg == "..") = true →
        openS fsys fuel name st = (.error .invalid, st)) ∧
    (openS fsC6 5 "." st0).1 = .ok (.dir [("bud", true)]) := by
  constructor
  · intro name fsys fuel st hne hbad
    have hall : ((splitSegs name).all fun seg => seg != "" && seg != "." && seg != "..")
        = false := by
      refine Bool.eq_false_iff.mpr fun hall => ?_
      obtain ⟨seg, hmem, hs⟩ := List.any_eq_true.mp hbad
      have hp := List.all_eq_true.mp hall seg hmem
      rcases Bool.or_eq_true_iff.mp hs with hs1 | hs2
      · rcases Bool.or_eq_true_iff.mp hs1 with h1 | h2
        · have : seg = "" := by simpa using h1
          subst this
          simp at hp
        · have : seg = "." := by simpa using h2
          subst this
          simp at hp
      · have : seg = ".." := by simpa using hs2
        subst this
        simp at hp
    have hv : validPath name = false := by
      simp [validPath, hall, hne]
    simp [openS, hv]
  · decide

/-- C6 witness: `open("bud/view/.")` on the `TestFS` session is
rejected as invalid without touching the state. -/
theorem path_validity_check :
    openS fsC6 3 "bud/view/." st0 = (.error .invalid, st0) := by
  exact path_validity.1 "bud/view/." fsC6 3 st0 (by decide) (by decide)

/-! ### Change-flush closure correctness (C1) -/

/-- Boolean key membership agrees with list membership. -/
theorem keyIn_iff (k : Key) (l : List Key) : keyIn k l = true ↔ k ∈ l := by
  simp [keyIn]

/-- The eviction round keeps everything already marked. -/
theorem mem_evictStep_self {cache : List (Key × GEntry)} {acc : List Key} {k : Key}
    (h : k ∈ acc) : k ∈ evictStep cache acc :=
  List.mem_append_left _ h

/-- Soundness of one eviction round: everything it marks is in the
inductive closure, provided the accumulator is. -/
theorem evictStep_sound {cache : List (Key × GEntry)} {changed acc : List Key}
    (hacc : ∀ a ∈ acc, InClosure cache changed a) :
    ∀ a ∈ evictStep cache acc, InClosure cache changed a := by
  intro a ha
  rcases List.mem_append.mp ha with h1 | h2
  · exact hacc a h1
  · rcases List.mem_filterMap.mp h2 with ⟨ke, hke, hf⟩
    rcases ke with ⟨k1, e1⟩
    by_cases hcond : (!keyIn k1 acc && e1.deps.any fun d => keyIn d acc) = true
    · simp only [if_pos hcond] at hf
      injection hf with hf1
      subst hf1
      have hdep := ((Bool.and_eq_true _ _).mp hcond).2
      rcases List.any_eq_true.mp hdep with ⟨d, hd, hdin⟩
      exact InClosure.step hke hd (hacc d ((keyIn_iff d acc).mp hdin))
    · simp only [if_neg hcond] at hf
      exact absurd hf (by simp)

/-- Soundness of the iterated eviction. -/
theorem evictIter_sound {cache : List (Key × GEntry)} {changed : List Key} :
    ∀ (n : Nat) (acc : List Key), (∀ a ∈ acc, InClosure cache changed a) →
      ∀ a ∈ evictIter cache n acc, InClosure cache changed a := by
  intro n
  induction n with
  | zero => intro acc hacc a ha; exact hacc a ha
  | succ m ih => intro acc hacc a ha; exact ih _ (evictStep_sound hacc) a ha

/-- The iterated eviction keeps the initial marks. -/
theorem subset_evictIter {cache : List (Key × GEntry)} :
    ∀ (n : Nat) (acc : List Key) (k : Key), k ∈ acc → k ∈ evictIter cache n acc := by
  intro n
  induction n with
  | zero => intro acc k h; exact h
  | succ m ih => intro acc k h; exact ih _ k (mem_evictStep_self h)

/-- A fixed point of the round is a fixed point of the iteration. -/
theorem evictStep_fix {cache : List (Key × GEntry)} {acc : List Key}
    (h : evictStep cache acc = acc) : ∀ n, evictIter cache n acc = acc := by
  intro n
  induction n with
  | zero => rfl
  | succ m ih => show evictIter cache m (evictStep cache acc) = acc; rw [h]; exact ih

/-- Key membership is monotone under appending marks. -/
theorem keyIn_mono {acc extra : List Key} {k : Key} (h : keyIn k acc = true) :
    keyIn k (acc ++ extra) = true := by
  rw [keyIn_iff] at h ⊢
  exact List.mem_append_left _ h

/-- A productive eviction round strictly decreases the number of
unmarked cache keys. -/
theorem evictStep_ne_measure {cache : List (Key × GEntry)} {acc : List Key}
    (h : ¬ evictStep cache acc = acc) :
    evMeasure cache (evictStep cache acc) < evMeasure cache acc := by
  set extra := cache.filterMap fun ke =>
    if !keyIn ke.1 acc && ke.2.deps.any (fun d => keyIn d acc) then some ke.1 else none
      with hextra
  have hstep : evictStep cache acc = acc ++ extra := rfl
  have hx : extra ≠ [] := by
    intro hnil
    apply h
    rw [hstep, hnil, List.append_nil]
  rcases List.exists_mem_of_ne_nil extra hx with ⟨x, hxmem⟩
  have hxprop : ∃ e1, (x, e1) ∈ cache ∧ keyIn x acc = false := by
    rcases List.mem_filterMap.mp (hextra ▸ hxmem) with ⟨ke, hke, hf⟩
    rcases ke with ⟨k1, e1⟩
    by_cases hcond : (!keyIn k1 acc && e1.deps.any fun d => keyIn d acc) = true
    · simp only [if_pos hcond] at hf
      injection hf with hf1
      subst hf1
      refine ⟨e1, hke, ?_⟩
      have h1 := ((Bool.and_eq_true _ _).mp hcond).1
      simpa using h1
    · simp only [if_neg hcond] at hf
      exact absurd hf (by simp)
  rcases hxprop with ⟨e1, hke, hnotin⟩
  have hxin : keyIn x (acc ++ extra) = true := by
    rw [keyIn_iff]
    exact List.mem_append_right _ hxmem
  have hkey : x ∈ cache.map Prod.fst := List.mem_map.mpr ⟨(x, e1), hke, rfl⟩
  have hsub : ((cache.map Prod.fst).filter fun k => !keyIn k (acc ++ extra)) =
      (((cache.map Prod.fst).filter fun k => !keyIn k acc).filter
        fun k => !keyIn k (acc ++ extra)) := by
    rw [List.filter_filter]
    apply List.filter_congr
    intro a _
    cases hval : keyIn a acc with
    | false => simp
    | true => simp [keyIn_mono hval]
  rw [evMeasure, evMeasure, hstep, hsub]
  apply List.length_filter_lt_length_iff_exists.mpr
  refine ⟨x, ?_, ?_⟩
  · exact List.mem_filter.mpr ⟨hkey, by simp [hnotin]⟩
  · simp [hxin]

/-- Iterating the round once per cache entry reaches a fixed point. -/
theorem evictIter_fix_reached {cache : List (Key × GEntry)} :
    ∀ (n : Nat) (acc : List Key), evMeasure cache acc ≤ n →
      evictStep cache (evictIter cache n acc) = evictIter cache n acc := by
  intro n
  induction n with
  | zero =>
      intro acc hm
      show evictStep cache acc = acc
      have hz : evMeasure cache acc = 0 := Nat.le_zero.mp hm
      have hfe : ((cache.map Prod.fst).filter fun k => !keyIn k acc) = [] :=
        List.length_eq_zero.mp hz
      have hall : ∀ ke ∈ cache,
          (if !keyIn ke.1 acc && ke.2.deps.any (fun d => keyIn d acc) then some ke.1
            else none) = none := by
        intro ke hke
        have hkey : ke.1 ∈ cache.map Prod.fst := List.mem_map.mpr ⟨ke, hke, rfl⟩
        have hin : keyIn ke.1 acc = true := by
          by_contra hc
          have : ke.1 ∈ (cache.map Prod.fst).filter fun k => !keyIn k acc :=
            List.mem_filter.mpr ⟨hkey, by simp [Bool.of_not_eq_true hc]⟩
          rw [hfe] at this
          exact absurd this (List.not_mem_nil _)
        simp [hin]
      show acc ++ _ = acc
      rw [List.filterMap_eq_nil_iff.mpr hall, List.append_nil]
  | succ m ih =>
      intro acc hm
      by_cases hF : evictStep cache acc = acc
      · have hiter : evictIter cache (m + 1) acc = acc := evictStep_fix hF (m + 1)
        rw [hiter]
        exact hF
      · have hlt := evictStep_ne_measure hF
        have hle : evMeasure cache (evictStep cache acc) ≤ m := by omega
        exact ih _ hle

/-- The computed closure is closed under the dependency step. -/
theorem closureKeys_closed {cache : List (Key × GEntry)} {changed : List Key} {k : Key}
    {e : GEntry} {d : Key} (hke : (k, e) ∈ cache) (hd : d ∈ e.deps)
    (hdin : d ∈ closureKeys cache changed) : k ∈ closureKeys cache changed := by
  by_cases hk : k ∈ closureKeys cache changed
  · exact hk
  · exfalso
    have hmle : evMeasure cache changed ≤ cache.length := by
      calc ((cache.map Prod.fst).filter fun kk => !keyIn kk changed).length
          ≤ (cache.map Prod.fst).length := List.length_filter_le _ _
        _ = cache.length := List.length_map _ _
    have hfix := evictIter_fix_reached cache.length changed hmle
    have hstep : k ∈ evictStep cache (closureKeys cache changed) := by
      apply List.mem_append_right
      apply List.mem_filterMap.mpr
      refine ⟨(k, e), hke, ?_⟩
      have hc1 : keyIn k (closureKeys cache changed) = false := by
        cases hval : keyIn k (closureKeys cache changed) with
        | false => rfl
        | true => exact absurd ((keyIn_iff _ _).mp hval) hk
      have hc2 : (e.deps.any fun dd => keyIn dd (closureKeys cache changed)) = true :=
        List.any_eq_true.mpr ⟨d, hd, (keyIn_iff _ _).mpr hdin⟩
      simp [hc1, hc2]
    rw [show evictStep cache (closureKeys cache changed) = closureKeys cache changed
      from hfix] at hstep
    exact hk hstep

/-- The computed closure is exactly the inductive transitive-dependent
closure. -/
theorem mem_closureKeys_iff (cache : List (Key × GEntry)) (changed : List Key) (k : Key) :
    k ∈ closureKeys cache changed ↔ InClosure cache changed k := by
  constructor
  · intro h
    exact evictIter_sound _ _ (fun a ha => InClosure.base ha) k h
  · intro h
    induction h with
    | base hmem => exact subset_evictIter _ _ _ hmem
    | step hke hd _ ih => exact closureKeys_closed hke hd ih

/-- Looking up in the evicted cache is looking up behind the eviction
set. -/
theorem lookupA_filter_evict {l : List (Key × GEntry)} {ev : List Key} (k : Key) :
    lookupA (l.filter fun ke => !keyIn ke.1 ev) k =
      if k ∈ ev then none else lookupA l k := by
  induction l with
  | nil => cases hc : decide (k ∈ ev) <;> simp [lookupA]
  | cons kv rest ih =>
      rcases kv with ⟨k1, v1⟩
      by_cases hkin : keyIn k1 ev = true
      · have h1 : k1 ∈ ev := (keyIn_iff _ _).mp hkin
        by_cases hkk : k1 = k
        · subst hkk
          simp [List.filter, hkin, lookupA, ih, h1]
        · simp [List.filter, hkin, lookupA, ih, hkk]
      · have hne : keyIn k1 ev = false := Bool.of_not_eq_true hkin
        by_cases hkk : k1 = k
        · subst hkk
          have h1 : k1 ∉ ev := fun hmem => hkin ((keyIn_iff _ _).mpr hmem)
          simp [List.filter, hne, lookupA, h1]
        · simp [List.filter, hne, lookupA, ih, hkk]

/-- C1: after `change(q)` and the flush performed by the next sync or
read, a key's generator-cache entry is gone (so its generator re-runs
on next access) if and only if it was absent before or the key lies in
the transitive-dependent closure of `q`; and every previously cached
entry whose dependency closure does not contain `q` survives and is
served from the cache — `runCached` returns the cached value with the
state unchanged, so its generator body is not re-run. -/
theorem change_precision (st : St) (q k : Key) (h : st.changes = []) :
    (lookupA (flushChanges (markChanged st q)).genCache k = none ↔
      (lookupA st.genCache k = none ∨ InClosure st.genCache [q] k)) ∧
    (∀ e : GEntry, lookupA st.genCache k = some e → ¬ InClosure st.genCache [q] k →
      lookupA (flushChanges (markChanged st q)).genCache k = some e ∧
      ∀ (rd : Rd) (ds : List Key) (res : Except Err (Option String)),
        runCached rd k ds res (flushChanges (markChanged st q)) =
          (.ok e.value, flushChanges (markChanged st q))) := by
  have hgc : (flushChanges (markChanged st q)).genCache =
      st.genCache.filter fun ke => !keyIn ke.1 (closureKeys st.genCache [q]) := by
    simp [flushChanges, markChanged, h]
  have hlk : lookupA (flushChanges (markChanged st q)).genCache k =
      if k ∈ closureKeys st.genCache [q] then none else lookupA st.genCache k := by
    rw [hgc, lookupA_filter_evict]
  constructor
  · rw [hlk]
    by_cases hmem : k ∈ closureKeys st.genCache [q]
    · rw [if_pos hmem]
      constructor
      · intro _
        exact Or.inr ((mem_closureKeys_iff _ _ _).mp hmem)
      · intro _
        rfl
    · rw [if_neg hmem]
      constructor
      · exact Or.inl
      · rintro (h1 | h2)
        · exact h1
        · exact absurd ((mem_closureKeys_iff _ _ _).mpr h2) hmem
  · intro e he hncl
    have hmem : k ∉ closureKeys st.genCache [q] :=
      fun hm => hncl ((mem_closureKeys_iff _ _ _).mp hm)
    have hsome : lookupA (flushChanges (markChanged st q)).genCache k = some e := by
      rw [hlk, if_neg hmem, he]
    refine ⟨hsome, fun rd ds res => ?_⟩
    simp [runCached, hsome]

/-- C1 witness: on the `TestCacheGenerateDir` cache, changing the
directory path `node_modules` evicts the dir generator that stat'ed
that directory (it re-runs next) but leaves the file generator that
only read the child `node_modules/svelte` cached. -/
theorem change_precision_check :
    lookupA (flushChanges (markChanged stC1 ["node_modules"])).genCache
      ["bud", "internal", "node_modules"] = none ∧
    lookupA (flushChanges (markChanged stC1 ["node_modules"])).genCache
      ["bud", "internal", "node_modules", "svelte.js"] =
      some ⟨some "svelte.js", [["node_modules", "svelte"]]⟩ := by
  have h1 := change_precision stC1 ["node_modules"] ["bud", "internal", "node_modules"] rfl
  have h2 := change_precision stC1 ["node_modules"]
      ["bud", "internal", "node_modules", "svelte.js"] rfl
  constructor
  · exact h1.1.mpr (Or.inr ((mem_closureKeys_iff _ _ _).mp (by decide)))
  · exact (h2.2 ⟨some "svelte.js", [["node_modules", "svelte"]]⟩ rfl
      (fun hc => absurd ((mem_closureKeys_iff _ _ _).mpr hc) (by decide))).1

end BudFS

namespace BudFS

theorem Ext.refl (s : St) : Ext s s := ⟨fun _ _ h => h, fun _ _ h => h, rfl⟩

theorem Ext.trans {a b c : St} (h1 : Ext a b) (h2 : Ext b c) : Ext a c :=
  ⟨fun k e h => h2.1 k e (h1.1 k e h),
   fun k r h => h2.2.1 k r (h1.2.1 k r h),
   h2.2.2.trans h1.2.2⟩

theorem lookupA_cacheInsert_of_some {l : List (Key × GEntry)} {k : Key} {e : GEntry}
    (k0 : Key) (e0 : GEntry) (h : lookupA l k = some e) :
    lookupA (cacheInsert l k0 e0) k = some e := by
  unfold cacheInsert
  cases h0 : lookupA l k0 with
  | some _ => exact h
  | none =>
      show lookupA ((k0, e0) :: l) k = some e
      by_cases hk : k0 = k
      · subst hk
        rw [h0] at h
        exact absurd h (by simp)
      · simp [lookupA, hk, h]

theorem lookupA_cacheInsert_self {l : List (Key × GEntry)} (k0 : Key) (e0 : GEntry) :
    ∃ e, lookupA (cacheInsert l k0 e0) k0 = some e := by
  unfold cacheInsert
  cases h0 : lookupA l k0 with
  | some e => exact ⟨e, h0⟩
  | none => exact ⟨e0, by simp [lookupA]⟩

theorem lookupA_cons_of_new {α : Type} {l : List (Key × α)} {k k0 : Key} {v : α} {e : α}
    (h0 : lookupA l k0 = none) (h : lookupA l k = some e) :
    lookupA ((k0, v) :: l) k = some e := by
  by_cases hk : k0 = k
  · subst hk
    rw [h0] at h
    exact absurd h (by simp)
  · simp [lookupA, hk, h]

theorem readBase_ext {base : Base} {p : Key} {st : St} {r : Except Err BNode} {st' : St}
    (h : readBase base p st = (r, st')) : Ext st st' := by
  unfold readBase at h
  cases h0 : lookupA st.readCache p with
  | some rr =>
      rw [h0] at h
      injection h with h1 h2
      subst h2
      exact Ext.refl st
  | none =>
      rw [h0] at h
      injection h with h1 h2
      subst h2
      exact ⟨fun k e hh => hh, fun k rr hh => lookupA_cons_of_new h0 hh, rfl⟩

end BudFS

namespace BudFS

theorem readDeps_ext {rd : Rd} (hrd : RdExt rd) :
    ∀ (ds : List Key) (st : St) (r : Except Err Unit) (st' : St),
      readDeps rd ds st = (r, st') → Ext st st' := by
  intro ds
  induction ds with
  | nil =>
      intro st r st' h
      injection h with h1 h2
      subst h2
      exact Ext.refl st
  | cons d rest ih =>
      intro st r st' h
      unfold readDeps at h
      rcases h0 : rd d st with ⟨r0, s0⟩
      rw [h0] at h
      cases r0 with
      | ok u => exact (hrd d st _ s0 h0).trans (ih s0 r st' h)
      | error e =>
          injection h with h1 h2
          subst h2
          exact hrd d st _ s0 h0

theorem runCached_ext {rd : Rd} (hrd : RdExt rd) {key : Key} {deps : List Key}
    {res : Except Err (Option String)} {st : St} {r : Except Err (Option String)} {st' : St}
    (h : runCached rd key deps res st = (r, st')) : Ext st st' := by
  unfold runCached at h
  cases h0 : lookupA st.genCache key with
  | some e =>
      rw [h0] at h
      injection h with h1 h2
      subst h2
      exact Ext.refl st
  | none =>
      rw [h0] at h
      rcases h1 : readDeps rd deps st with ⟨r1, s1⟩
      rw [h1] at h
      have hx1 : Ext st s1 := readDeps_ext hrd deps st r1 s1 h1
      cases r1 with
      | error e =>
          injection h with ha hb
          subst hb
          exact hx1
      | ok u =>
          cases res with
          | ok v =>
              injection h with ha hb
              subst hb
              refine hx1.trans ⟨fun k e hh => lookupA_cacheInsert_of_some key _ hh,
                fun k rr hh => hh, rfl⟩
          | error e =>
              injection h with ha hb
              subst hb
              exact hx1

theorem runCached_post {rd : Rd} {key : Key} {deps : List Key}
    {res : Except Err (Option String)} {st : St} {v : Option String} {st' : St}
    (h : runCached rd key deps res st = (.ok v, st')) :
    ∃ e, lookupA st'.genCache key = some e := by
  unfold runCached at h
  cases h0 : lookupA st.genCache key with
  | some e =>
      rw [h0] at h
      injection h with h1 h2
      subst h2
      exact ⟨e, h0⟩
  | none =>
      rw [h0] at h
      rcases h1 : readDeps rd deps st with ⟨r1, s1⟩
      rw [h1] at h
      cases r1 with
      | error e => exact absurd h (by simp)
      | ok u =>
          cases res with
          | ok v2 =>
              injection h with ha hb
              subst hb
              exact lookupA_cacheInsert_self key _
          | error e => exact absurd h (by simp)

theorem runCached_hit {rd : Rd} {key : Key} {deps : List Key}
    {res : Except Err (Option String)} {st : St} {e : GEntry}
    (h : lookupA st.genCache key = some e) :
    runCached rd key deps res st = (.ok e.value, st) := by
  unfold runCached
  rw [h]

theorem runChain_ext {rd : Rd} (hrd : RdExt rd) :
    ∀ (chain : List (Key × List Key)) (st : St) (r : Except Err Unit) (st' : St),
      runChain rd chain st = (r, st') → Ext st st' := by
  intro chain
  induction chain with
  | nil =>
      intro st r st' h
      injection h with h1 h2
      subst h2
      exact Ext.refl st
  | cons kds rest ih =>
      intro st r st' h
      rcases kds with ⟨k, ds⟩
      unfold runChain at h
      rcases h0 : runCached rd k ds (.ok none) st with ⟨r0, s0⟩
      rw [h0] at h
      cases r0 with
      | ok u => exact (runCached_ext hrd h0).trans (ih s0 r st' h)
      | error e =>
          injection h with h1 h2
          subst h2
          exact runCached_ext hrd h0

theorem runChain_post {rd : Rd} (hrd : RdExt rd) :
    ∀ (chain : List (Key × List Key)) (st : St) (u : Unit) (st' : St),
      runChain rd chain st = (.ok u, st') →
      ∀ kds ∈ chain, ∃ e, lookupA st'.genCache kds.1 = some e := by
  intro chain
  induction chain with
  | nil =>
      intro st u st' h kds hmem
      exact absurd hmem (List.not_mem_nil _)
  | cons kd0 rest ih =>
      intro st u st' h kds hmem
      rcases kd0 with ⟨k, ds⟩
      unfold runChain at h
      rcases h0 : runCached rd k ds (.ok none) st with ⟨r0, s0⟩
      rw [h0] at h
      cases r0 with
      | error e => exact absurd h (by simp)
      | ok u0 =>
          have hx : Ext s0 st' := runChain_ext hrd rest s0 _ st' h
          rcases List.mem_cons.mp hmem with h1 | h2
          · subst h1
            rcases runCached_post h0 with ⟨e, he⟩
            exact ⟨e, hx.1 _ e he⟩
          · exact ih s0 u st' h kds h2

theorem runChain_cached {rd : Rd} :
    ∀ (chain : List (Key × List Key)) (st : St),
      (∀ kds ∈ chain, ∃ e, lookupA st.genCache kds.1 = some e) →
      runChain rd chain st = (.ok (), st) := by
  intro chain
  induction chain with
  | nil => intro st _; rfl
  | cons kd0 rest ih =>
      intro st hall
      rcases kd0 with ⟨k, ds⟩
      rcases hall (k, ds) (List.mem_cons_self _ _) with ⟨e, he⟩
      unfold runChain
      rw [runCached_hit he]
      exact ih st fun kds hm => hall kds (List.mem_cons_of_mem _ hm)

end BudFS

namespace BudFS

theorem runChildren_ext {rd : Rd} (hrd : RdExt rd) :
    ∀ (children : List (String × ChildInfo)) (st : St) (r : Except Err (List (String × Bool)))
      (st' : St), runChildren rd children st = (r, st') → Ext st st' := by
  intro children
  induction children with
  | nil =>
      intro st r st' h
      injection h with h1 h2
      subst h2
      exact Ext.refl st
  | cons ci rest ih =>
      intro st r st' h
      rcases ci with ⟨c, info⟩
      cases info with
      | stubDir =>
          unfold runChildren at h
          rcases h0 : runChildren rd rest st with ⟨r0, s0⟩
          rw [h0] at h
          cases r0 with
          | ok l =>
              injection h with h1 h2
              subst h2
              exact ih st _ s0 h0
          | error e =>
              injection h with h1 h2
              subst h2
              exact ih st _ s0 h0
      | stubFile =>
          unfold runChildren at h
          rcases h0 : runChildren rd rest st with ⟨r0, s0⟩
          rw [h0] at h
          cases r0 with
          | ok l =>
              injection h with h1 h2
              subst h2
              exact ih st _ s0 h0
          | error e =>
              injection h with h1 h2
              subst h2
              exact ih st _ s0 h0
      | fileRun k ds res =>
          unfold runChildren at h
          rcases h0 : runCached rd k ds (res.map some) st with ⟨r0, s0⟩
          rw [h0] at h
          have hx0 : Ext st s0 := runCached_ext hrd h0
          cases r0 with
          | ok v =>
              dsimp only at h
              rcases h1 : runChildren rd rest s0 with ⟨r1, s1⟩
              rw [h1] at h
              cases r1 with
              | ok l =>
                  injection h with ha hb
                  subst hb
                  exact hx0.trans (ih s0 _ s1 h1)
              | error e =>
                  injection h with ha hb
                  subst hb
                  exact hx0.trans (ih s0 _ s1 h1)
          | error e =>
              cases e with
              | notExist => exact hx0.trans (ih s0 r st' h)
              | invalid =>
                  injection h with ha hb
                  subst hb
                  exact hx0
              | other =>
                  injection h with ha hb
                  subst hb
                  exact hx0

theorem baseFall_ext {base : Base} {p : Key} {st : St} {r : Except Err VNode} {st' : St}
    (h : baseFall base p st = (r, st')) : Ext st st' := by
  unfold baseFall at h
  rcases h0 : readBase base p st with ⟨r0, s0⟩
  rw [h0] at h
  have hx := readBase_ext h0
  cases r0 with
  | ok b =>
      cases b with
      | file d =>
          injection h with h1 h2
          subst h2
          exact hx
      | dir kids =>
          injection h with h1 h2
          subst h2
          exact hx
  | error e =>
      injection h with h1 h2
      subst h2
      exact hx

theorem mergeDir_ext {base : Base} {p : Key} {gkids : List (String × Bool)} {st : St}
    {r : Except Err VNode} {st' : St} (h : mergeDir base p gkids st = (r, st')) : Ext st st' := by
  unfold mergeDir at h
  rcases h0 : readBase base p st with ⟨r0, s0⟩
  rw [h0] at h
  have hx := readBase_ext h0
  cases r0 with
  | ok b =>
      cases b with
      | file d =>
          injection h with h1 h2
          subst h2
          exact hx
      | dir kids =>
          injection h with h1 h2
          subst h2
          exact hx
  | error e =>
      cases e with
      | notExist =>
          injection h with h1 h2
          subst h2
          exact hx
      | invalid =>
          injection h with h1 h2
          subst h2
          exact hx
      | other =>
          injection h with h1 h2
          subst h2
          exact hx

theorem dirFinish_ext {rd : Rd} (hrd : RdExt rd) {base : Base} {p : Key}
    {children : List (String × ChildInfo)} {st : St} {r : Except Err VNode} {st' : St}
    (h : dirFinish rd base p children st = (r, st')) : Ext st st' := by
  unfold dirFinish at h
  rcases h0 : runChildren rd children st with ⟨r0, s0⟩
  rw [h0] at h
  have hx := runChildren_ext hrd children st r0 s0 h0
  cases r0 with
  | error e =>
      injection h with h1 h2
      subst h2
      exact hx
  | ok gkids => exact hx.trans (mergeDir_ext h)

end BudFS

namespace BudFS

theorem readPath_ext (reg : Reg) (base : Base) :
    ∀ (f : Nat) (p : Key) (st : St) (r : Except Err VNode) (st' : St),
      readPath reg base f p st = (r, st') → Ext st st' := by
  intro f
  induction f with
  | zero =>
      intro p st r st' h
      unfold readPath at h
      injection h with h1 h2
      subst h2
      exact Ext.refl st
  | succ f1 ih =>
      intro p st r st' h
      have hrd : RdExt (fun k s =>
          match readPath reg base f1 k s with
          | (.ok _, s') => ((.ok () : Except Err Unit), s')
          | (.error e, s') => (.error e, s')) := by
        intro k s rr s' hh
        dsimp only at hh
        rcases hm : readPath reg base f1 k s with ⟨r2, s2⟩
        rw [hm] at hh
        have hx := ih k s r2 s2 hm
        cases r2 with
        | ok v =>
            injection hh with ha hb
            subst hb
            exact hx
        | error e =>
            injection hh with ha hb
            subst hb
            exact hx
      simp only [readPath] at h
      rcases hch : runChain (fun k s =>
          match readPath reg base f1 k s with
          | (.ok _, s') => ((.ok () : Except Err Unit), s')
          | (.error e, s') => (.error e, s')) (route [] reg p).1 st with ⟨rc, s1⟩
      rw [hch] at h
      have hx1 : Ext st s1 := runChain_ext hrd _ st rc s1 hch
      cases rc with
      | error e =>
          injection h with ha hb
          subst hb
          exact hx1
      | ok u =>
          dsimp only at h
          cases hce : (route [] reg p).2 with
          | fileGen k ds res =>
              rw [hce] at h
              dsimp only at h
              rcases hrc : runCached (fun k s =>
                  match readPath reg base f1 k s with
                  | (.ok _, s') => ((.ok () : Except Err Unit), s')
                  | (.error e, s') => (.error e, s')) k ds (res.map some) s1 with ⟨rr, s2⟩
              rw [hrc] at h
              have hx2 : Ext s1 s2 := runCached_ext hrd hrc
              cases rr with
              | ok v =>
                  injection h with ha hb
                  subst hb
                  exact hx1.trans hx2
              | error e =>
                  cases e with
                  | notExist => exact hx1.trans (hx2.trans (baseFall_ext h))
                  | invalid =>
                      injection h with ha hb
                      subst hb
                      exact hx1.trans hx2
                  | other =>
                      injection h with ha hb
                      subst hb
                      exact hx1.trans hx2
          | serveGen k ds data =>
              rw [hce] at h
              dsimp only at h
              rcases hrc : runCached (fun k s =>
                  match readPath reg base f1 k s with
                  | (.ok _, s') => ((.ok () : Except Err Unit), s')
                  | (.error e, s') => (.error e, s')) k ds (.ok (some data)) s1 with ⟨rr, s2⟩
              rw [hrc] at h
              have hx2 : Ext s1 s2 := runCached_ext hrd hrc
              cases rr with
              | ok v =>
                  injection h with ha hb
                  subst hb
                  exact hx1.trans hx2
              | error e =>
                  cases e with
                  | notExist => exact hx1.trans (hx2.trans (baseFall_ext h))
                  | invalid =>
                      injection h with ha hb
                      subst hb
                      exact hx1.trans hx2
                  | other =>
                      injection h with ha hb
                      subst hb
                      exact hx1.trans hx2
          | mountFile d =>
              rw [hce] at h
              dsimp only at h
              injection h with ha hb
              subst hb
              exact hx1
          | dirNode drun children =>
              rw [hce] at h
              cases drun with
              | none =>
                  dsimp only at h
                  exact hx1.trans (dirFinish_ext hrd h)
              | some kde =>
                  rcases kde with ⟨k, ds, berr⟩
                  cases berr with
                  | some e0 =>
                      dsimp only at h
                      rcases hrc : runCached (fun k s =>
                          match readPath reg base f1 k s with
                          | (.ok _, s') => ((.ok () : Except Err Unit), s')
                          | (.error e, s') => (.error e, s')) k ds (.error e0) s1
                        with ⟨rr, s2⟩
                      rw [hrc] at h
                      have hx2 : Ext s1 s2 := runCached_ext hrd hrc
                      cases rr with
                      | ok v => exact hx1.trans (hx2.trans (dirFinish_ext hrd h))
                      | error e =>
                          cases e with
                          | notExist => exact hx1.trans (hx2.trans (baseFall_ext h))
                          | invalid =>
                              injection h with ha hb
                              subst hb
                              exact hx1.trans hx2
                          | other =>
                              injection h with ha hb
                              subst hb
                              exact hx1.trans hx2
                  | none =>
                      dsimp only at h
                      rcases hrc : runCached (fun k s =>
                          match readPath reg base f1 k s with
                          | (.ok _, s') => ((.ok () : Except Err Unit), s')
                          | (.error e, s') => (.error e, s')) k ds (.ok none) s1
                        with ⟨rr, s2⟩
                      rw [hrc] at h
                      have hx2 : Ext s1 s2 := runCached_ext hrd hrc
                      cases rr with
                      | ok v => exact hx1.trans (hx2.trans (dirFinish_ext hrd h))
                      | error e =>
                          cases e with
                          | notExist => exact hx1.trans (hx2.trans (baseFall_ext h))
                          | invalid =>
                              injection h with ha hb
                              subst hb
                              exact hx1.trans hx2
                          | other =>
                              injection h with ha hb
                              subst hb
                              exact hx1.trans hx2
          | fallThrough =>
              rw [hce] at h
              dsimp only at h
              exact hx1.trans (baseFall_ext h)
          | invalidArg =>
              rw [hce] at h
              dsimp only at h
              injection h with ha hb
              subst hb
              exact hx1

end BudFS

namespace BudFS

theorem endKey_mountNode (entries : List (Key × String)) (rel : Key) :
    endKey (mountNode entries rel) = none := by
  unfold mountNode
  cases h0 : lookupA entries rel with
  | some d => rfl
  | none =>
      dsimp only
      split
      · rfl
      · rfl

theorem route_end_key : ∀ (q pfx : Key) (reg : Reg) (k : Key),
    endKey (route pfx reg q).2 = some k → k = pfx ++ q := by
  intro q
  induction q with
  | nil =>
      intro pfx reg k h
      simp only [route] at h
      cases hra : regAt reg with
      | none =>
          rw [hra] at h
          dsimp only at h
          split at h
          · exact absurd h (by simp [endKey])
          · exact absurd h (by simp [endKey])
      | some g =>
          rw [hra] at h
          cases g with
          | file ds res =>
              dsimp only [endKey] at h
              injection h with h1
              subst h1
              simp
          | dir ds berr children =>
              cases berr with
              | some e => exact absurd h (by simp [endKey])
              | none => exact absurd h (by simp [endKey])
          | server body => exact absurd h (by simp [endKey])
          | mount entries =>
              dsimp only at h
              rw [endKey_mountNode] at h
              exact absurd h (by simp)
  | cons c rest ih =>
      intro pfx reg k h
      simp only [route] at h
      cases hra : regAt reg with
      | none =>
          rw [hra] at h
          dsimp only at h
          split at h
          · exact absurd h (by simp [endKey])
          · have := ih (pfx ++ [c]) _ k h
            rw [this]
            simp
      | some g =>
          rw [hra] at h
          cases g with
          | mount entries =>
              dsimp only at h
              rw [endKey_mountNode] at h
              exact absurd h (by simp)
          | file ds res =>
              dsimp only at h
              split at h
              · exact absurd h (by simp [endKey])
              · have := ih (pfx ++ [c]) _ k h
                rw [this]
                simp
          | server body =>
              dsimp only at h
              split at h
              · dsimp only [endKey] at h
                injection h with h1
                subst h1
                rfl
              · have := ih (pfx ++ [c]) _ k h
                rw [this]
                simp
          | dir ds berr children =>
              dsimp only at h
              split at h
              · split at h
                · exact absurd h (by simp [endKey])
                · have := ih (pfx ++ [c]) _ k h
                  rw [this]
                  simp
              · have := ih (pfx ++ [c]) _ k h
                rw [this]
                simp

end BudFS

namespace BudFS

theorem flushChanges_nil {st : St} (h : st.changes = []) : flushChanges st = st := by
  unfold flushChanges
  rw [h]

/-- C2: path idempotence — for every session, fuel, name and state with
no pending changes, if `readFile` succeeds with `data` ending in state
`st'`, the path is served by a caching generator of the tree (a file
generator or file server at that path), and that generator's cache
entry after the read holds `data`, then reading again returns the same
bytes and leaves the state exactly unchanged: no generator body is
re-run (the run logs are part of the state), the second read is served
from the generator cache. -/
theorem read_file_idempotent (fsys : FSys) (f : Nat) (name : String) (st : St)
    (data : String) (st' : St) (e : GEntry)
    (h0 : st.changes = [])
    (h1 : readFileS fsys f name st = (.ok data, st'))
    (h2 : genServed fsys.reg (segsOf name) = true)
    (h3 : lookupA st'.genCache (segsOf name) = some e)
    (h4 : e.value = some data) :
    readFileS fsys f name st' = (.ok data, st') := by
  by_cases hv : validPath name = true
  case neg =>
      exfalso
      unfold readFileS openS at h1
      rw [if_neg hv] at h1
      dsimp only at h1
      injection h1 with ha hb
      exact Except.noConfusion ha
  case pos =>
      unfold readFileS openS at h1 ⊢
      rw [if_pos hv] at h1 ⊢
      unfold openSeg at h1 ⊢
      rw [flushChanges_nil h0] at h1
      rcases hrp : readPath fsys.reg fsys.base f (segsOf name) st with ⟨rv, s1⟩
      rw [hrp] at h1
      cases rv with
      | error e2 => exact absurd h1 (by simp)
      | ok v =>
          cases v with
          | dir kids => exact absurd h1 (by simp)
          | file d =>
              dsimp only at h1
              have hb : s1 = st' := by
                injection h1 with ha hb
              have hd : d = data := by
                injection h1 with ha hb
                injection ha with ha2
              rw [hb, hd] at hrp
              have hxall : Ext st st' := readPath_ext _ _ f _ st _ st' hrp
              have hch' : st'.changes = [] := hxall.2.2.trans h0
              rw [flushChanges_nil hch']
              -- first run succeeded with file data at st'
              cases f with
              | zero =>
                  exfalso
                  unfold readPath at hrp
                  injection hrp with hh1 hh2
                  exact Except.noConfusion hh1
              | succ f1 =>
                  have hrd : RdExt (fun k s =>
                      match readPath fsys.reg fsys.base f1 k s with
                      | (.ok _, s') => ((.ok () : Except Err Unit), s')
                      | (.error e, s') => (.error e, s')) := by
                    intro k s rr s' hh
                    dsimp only at hh
                    rcases hm : readPath fsys.reg fsys.base f1 k s with ⟨r2, s2⟩
                    rw [hm] at hh
                    have hx := readPath_ext fsys.reg fsys.base f1 k s r2 s2 hm
                    cases r2 with
                    | ok vv =>
                        injection hh with ha hb
                        subst hb
                        exact hx
                    | error e2 =>
                        injection hh with ha hb
                        subst hb
                        exact hx
                  simp only [readPath] at hrp ⊢
                  rcases hch : runChain (fun k s =>
                      match readPath fsys.reg fsys.base f1 k s with
                      | (.ok _, s') => ((.ok () : Except Err Unit), s')
                      | (.error e, s') => (.error e, s'))
                      (route [] fsys.reg (segsOf name)).1 st with ⟨rc, s2⟩
                  rw [hch] at hrp
                  cases rc with
                  | error e2 => exact absurd hrp (by simp)
                  | ok u =>
                      dsimp only at hrp
                      -- chain keys are cached from the first run on
                      have hpost := runChain_post hrd _ st u s2 hch
                      -- find how the first run ended to get Ext s2 st'
                      have hx2 : Ext s2 st' := by
                        cases hce : (route [] fsys.reg (segsOf name)).2 with
                        | fileGen k ds res =>
                            rw [hce] at hrp
                            dsimp only at hrp
                            rcases hrc : runCached (fun k s =>
                                match readPath fsys.reg fsys.base f1 k s with
                                | (.ok _, s') => ((.ok () : Except Err Unit), s')
                                | (.error e, s') => (.error e, s')) k ds (res.map some) s2
                              with ⟨rr, s3⟩
                            rw [hrc] at hrp
                            have hxr : Ext s2 s3 := runCached_ext hrd hrc
                            cases rr with
                            | ok vv =>
                                injection hrp with ha hb
                                subst hb
                                exact hxr
                            | error e2 =>
                                cases e2 with
                                | notExist => exact hxr.trans (baseFall_ext hrp)
                                | invalid => exact absurd hrp (by simp)
                                | other => exact absurd hrp (by simp)
                        | serveGen k ds dd =>
                            rw [hce] at hrp
                            dsimp only at hrp
                            rcases hrc : runCached (fun k s =>
                                match readPath fsys.reg fsys.base f1 k s with
                                | (.ok _, s') => ((.ok () : Except Err Unit), s')
                                | (.error e, s') => (.error e, s')) k ds (.ok (some dd)) s2
                              with ⟨rr, s3⟩
                            rw [hrc] at hrp
                            have hxr : Ext s2 s3 := runCached_ext hrd hrc
                            cases rr with
                            | ok vv =>
                                injection hrp with ha hb
                                subst hb
                                exact hxr
                            | error e2 =>
                                cases e2 with
                                | notExist => exact hxr.trans (baseFall_ext hrp)
                                | invalid => exact absurd hrp (by simp)
                                | other => exact absurd hrp (by simp)
                        | mountFile d2 =>
                            rw [hce] at hrp
                            dsimp only at hrp
                            injection hrp with ha hb
                            subst hb
                            exact Ext.refl s2
                        | dirNode drun children =>
                            exfalso
                            unfold genServed at h2
                            rw [hce] at h2
                            simp [endKey] at h2
                        | fallThrough =>
                            exfalso
                            unfold genServed at h2
                            rw [hce] at h2
                            simp [endKey] at h2
                        | invalidArg =>
                            exfalso
                            unfold genServed at h2
                            rw [hce] at h2
                            simp [endKey] at h2
                      -- second run: all chain generators hit the cache
                      have hcached : ∀ kds ∈ (route [] fsys.reg (segsOf name)).1,
                          ∃ ee, lookupA st'.genCache kds.1 = some ee := by
                        intro kds hm
                        rcases hpost kds hm with ⟨ee, hee⟩
                        exact ⟨ee, hx2.1 _ ee hee⟩
                      rw [runChain_cached _ st' hcached]
                      dsimp only
                      cases hce : (route [] fsys.reg (segsOf name)).2 with
                      | fileGen k ds res =>
                          dsimp only
                          have hk : k = segsOf name := by
                            have := route_end_key (segsOf name) [] fsys.reg k
                              (by rw [hce]; rfl)
                            simpa using this
                          subst hk
                          rw [runCached_hit h3]
                          dsimp only
                          rw [h4]
                          rfl
                      | serveGen k ds dd =>
                          dsimp only
                          have hk : k = segsOf name := by
                            have := route_end_key (segsOf name) [] fsys.reg k
                              (by rw [hce]; rfl)
                            simpa using this
                          subst hk
                          rw [runCached_hit h3]
                          dsimp only
                          rw [h4]
                          rfl
                      | mountFile d2 =>
                          exfalso
                          unfold genServed at h2
                          rw [hce] at h2
                          simp [endKey] at h2
                      | dirNode drun children =>
                          exfalso
                          unfold genServed at h2
                          rw [hce] at h2
                          simp [endKey] at h2
                      | fallThrough =>
                          exfalso
                          unfold genServed at h2
                          rw [hce] at h2
                          simp [endKey] at h2
                      | invalidArg =>
                          exfalso
                          unfold genServed at h2
                          rw [hce] at h2
                          simp [endKey] at h2

end BudFS

namespace BudFS

/-- C2 witness: a concrete second read of `a.txt` returns the same
bytes with the state (including both run logs) exactly unchanged. -/
theorem read_file_idempotent_check :
    readFileS fsC2 3 "a.txt"
      ⟨[(["a.txt"], ⟨some "b", []⟩)], [], [], [["a.txt"]], []⟩ =
      (.ok "b", ⟨[(["a.txt"], ⟨some "b", []⟩)], [], [], [["a.txt"]], []⟩) := by
  exact read_file_idempotent fsC2 3 "a.txt" st0 "b"
    ⟨[(["a.txt"], ⟨some "b", []⟩)], [], [], [["a.txt"]], []⟩ ⟨some "b", []⟩
    rfl (by decide) (by decide) (by decide) rfl

end BudFS
